import Mathlib

/-!
Verification of the odyssey multi-chain wallet core against its
natural-language specification.

The Go source is shallowly embedded: byte strings become `List Nat`
(every element intended `< 256`), machine integers become `Nat`/`Int`
with explicit modular reduction where overflow matters, fallible code
returns `Except String` or `Option`, and file-system state is passed
explicitly.  External library primitives that the repository merely
calls (scrypt, AES-GCM, JSON, Keccak-256) are abstracted as function
parameters; the cryptographic primitives the claims actually reason
about (HMAC-SHA512, secp256k1 scalar multiplication, base58) are
implemented concretely.
-/

set_option maxRecDepth 4000

namespace Odyssey

/-! ## Byte-string helpers (Go `big.Int` and `encoding/binary` semantics) -/

/-- Big-endian bytes to natural number, the semantics of Go
`new(big.Int).SetBytes`. -/
def natOfBytes (l : List Nat) : Nat :=
  l.foldl (fun a x => a * 256 + x) 0

/-- Little-endian base-`b` digits of `n`, computed with explicit fuel so the
definition is structural (first argument is the fuel). -/
def toDigitsRev (b : Nat) : Nat → Nat → List Nat
  | 0, _ => []
  | fuel + 1, n => if n = 0 then [] else n % b :: toDigitsRev b fuel (n / b)

/-- Minimal big-endian byte encoding of a natural number, the semantics of Go
`big.Int.Bytes` (the encoding of `0` is empty). -/
def natToBytes (n : Nat) : List Nat :=
  (toDigitsRev 256 n n).reverse

/-- Big-endian 4-byte encoding, the semantics of Go
`binary.BigEndian.PutUint32` (the argument is reduced mod `2^32`). -/
def uint32be (n : Nat) : List Nat :=
  [n / 2 ^ 24 % 256, n / 2 ^ 16 % 256, n / 2 ^ 8 % 256, n % 256]

/-! ## SHA-512 and HMAC-SHA512 (Go `crypto/sha512`, `crypto/hmac`) -/

namespace SHA512

/-- Reduce to a 64-bit word. -/
def mod64 (x : Nat) : Nat := x % 2 ^ 64

/-- 64-bit right rotation. -/
def rotr (r x : Nat) : Nat := mod64 (x >>> r ||| x <<< (64 - r))

/-- 64-bit bitwise complement. -/
def not64 (x : Nat) : Nat := 2 ^ 64 - 1 - x

/-- The eight initial SHA-512 hash values (FIPS 180-4). -/
def h0 : List Nat :=
  [0x6A09E667F3BCC908, 0xBB67AE8584CAA73B, 0x3C6EF372FE94F82B,
   0xA54FF53A5F1D36F1, 0x510E527FADE682D1, 0x9B05688C2B3E6C1F,
   0x1F83D9ABFB41BD6B, 0x5BE0CD19137E2179]

/-- The eighty SHA-512 round constants (FIPS 180-4). -/
def K : List Nat :=
  [0x428A2F98D728AE22, 0x7137449123EF65CD, 0xB5C0FBCFEC4D3B2F, 0xE9B5DBA58189DBBC, 0x3956C25BF348B538,
   0x59F111F1B605D019, 0x923F82A4AF194F9B, 0xAB1C5ED5DA6D8118, 0xD807AA98A3030242, 0x12835B0145706FBE,
   0x243185BE4EE4B28C, 0x550C7DC3D5FFB4E2, 0x72BE5D74F27B896F, 0x80DEB1FE3B1696B1, 0x9BDC06A725C71235,
   0xC19BF174CF692694, 0xE49B69C19EF14AD2, 0xEFBE4786384F25E3, 0x0FC19DC68B8CD5B5, 0x240CA1CC77AC9C65,
   0x2DE92C6F592B0275, 0x4A7484AA6EA6E483, 0x5CB0A9DCBD41FBD4, 0x76F988DA831153B5, 0x983E5152EE66DFAB,
   0xA831C66D2DB43210, 0xB00327C898FB213F, 0xBF597FC7BEEF0EE4, 0xC6E00BF33DA88FC2, 0xD5A79147930AA725,
   0x06CA6351E003826F, 0x142929670A0E6E70, 0x27B70A8546D22FFC, 0x2E1B21385C26C926, 0x4D2C6DFC5AC42AED,
   0x53380D139D95B3DF, 0x650A73548BAF63DE, 0x766A0ABB3C77B2A8, 0x81C2C92E47EDAEE6, 0x92722C851482353B,
   0xA2BFE8A14CF10364, 0xA81A664BBC423001, 0xC24B8B70D0F89791, 0xC76C51A30654BE30, 0xD192E819D6EF5218,
   0xD69906245565A910, 0xF40E35855771202A, 0x106AA07032BBD1B8, 0x19A4C116B8D2D0C8, 0x1E376C085141AB53,
   0x2748774CDF8EEB99, 0x34B0BCB5E19B48A8, 0x391C0CB3C5C95A63, 0x4ED8AA4AE3418ACB, 0x5B9CCA4F7763E373,
   0x682E6FF3D6B2B8A3, 0x748F82EE5DEFB2FC, 0x78A5636F43172F60, 0x84C87814A1F0AB72, 0x8CC702081A6439EC,
   0x90BEFFFA23631E28, 0xA4506CEBDE82BDE9, 0xBEF9A3F7B2C67915, 0xC67178F2E372532B, 0xCA273ECEEA26619C,
   0xD186B8C721C0C207, 0xEADA7DD6CDE0EB1E, 0xF57D4F7FEE6ED178, 0x06F067AA72176FBA, 0x0A637DC5A2C898A6,
   0x113F9804BEF90DAE, 0x1B710B35131C471B, 0x28DB77F523047D84, 0x32CAAB7B40C72493, 0x3C9EBE0A15C9BEBC,
   0x431D67C49C100D4C, 0x4CC5D4BECB3E42B6, 0x597F299CFC657E2A, 0x5FCB6FAB3AD6FAEC, 0x6C44198C4A475817]

/-- Big-endian 8-byte encoding of a 64-bit word. -/
def wordBytes (w : Nat) : List Nat :=
  [w >>> 56 % 256, w >>> 48 % 256, w >>> 40 % 256, w >>> 32 % 256,
   w >>> 24 % 256, w >>> 16 % 256, w >>> 8 % 256, w % 256]

/-- Read one big-endian 64-bit word from the front of a byte list. -/
def wordOfBytes (l : List Nat) : Nat :=
  (l.take 8).foldl (fun a x => a * 256 + x) 0

/-- Split a byte list into big-endian 64-bit words (fuel-driven). -/
def wordsOfBytes : Nat → List Nat → List Nat
  | 0, _ => []
  | _, [] => []
  | fuel + 1, l => wordOfBytes l :: wordsOfBytes fuel (l.drop 8)

/-- SHA-512 message padding: append `0x80`, zero-pad to 112 mod 128, then the
message bit length as a 16-byte big-endian integer. -/
def pad (msg : List Nat) : List Nat :=
  let padLen := (128 + 112 - (msg.length + 1) % 128) % 128
  msg ++ 0x80 :: List.replicate padLen 0 ++
    List.replicate 8 0 ++ wordBytes (mod64 (msg.length * 8))

/-- Extend the sixteen message words of a block to eighty schedule words. -/
def extend : Nat → List Nat → List Nat
  | 0, w => w
  | fuel + 1, w =>
    let i := w.length
    let w15 := w.getD (i - 15) 0
    let w2 := w.getD (i - 2) 0
    let s0 := (rotr 1 w15).xor ((rotr 8 w15).xor (w15 >>> 7))
    let s1 := (rotr 19 w2).xor ((rotr 61 w2).xor (w2 >>> 6))
    extend fuel (w ++ [mod64 (w.getD (i - 16) 0 + s0 + w.getD (i - 7) 0 + s1)])

/-- One round of the SHA-512 compression loop, acting on the eight working
variables `[a, b, c, d, e, f, g, h]`. -/
def round (st : List Nat) (k w : Nat) : List Nat :=
  match st with
  | [a, b, c, d, e, f, g, h] =>
    let S1 := (rotr 14 e).xor ((rotr 18 e).xor (rotr 41 e))
    let ch := (e.land f).xor ((not64 e).land g)
    let t1 := mod64 (h + S1 + ch + k + w)
    let S0 := (rotr 28 a).xor ((rotr 34 a).xor (rotr 39 a))
    let maj := (a.land b).xor ((a.land c).xor (b.land c))
    let t2 := mod64 (S0 + maj)
    [mod64 (t1 + t2), a, b, c, mod64 (d + t1), e, f, g]
  | st => st

/-- Compress one 128-byte block into the running hash state. -/
def compress (st : List Nat) (block : List Nat) : List Nat :=
  let w := extend 64 (wordsOfBytes 16 block)
  let fin := (List.zip K w).foldl (fun s kw => round s kw.1 kw.2) st
  (List.zip st fin).map fun p => mod64 (p.1 + p.2)

/-- Fold the compression function over consecutive 128-byte blocks. -/
def blocksFold (st : List Nat) : Nat → List Nat → List Nat
  | 0, _ => st
  | _, [] => st
  | fuel + 1, l => blocksFold (compress st (l.take 128)) fuel (l.drop 128)

/-- SHA-512 of a byte string, as a list of 64 bytes. -/
def sha512 (msg : List Nat) : List Nat :=
  let padded := pad msg
  let fin := blocksFold h0 (padded.length / 128) padded
  wordBytes (fin.getD 0 0) ++ wordBytes (fin.getD 1 0) ++ wordBytes (fin.getD 2 0) ++
    wordBytes (fin.getD 3 0) ++ wordBytes (fin.getD 4 0) ++ wordBytes (fin.getD 5 0) ++
    wordBytes (fin.getD 6 0) ++ wordBytes (fin.getD 7 0)

/-- HMAC-SHA512 (RFC 2104): keys longer than the 128-byte block are hashed
first, then padded with zeros to the block size. -/
def hmac (key data : List Nat) : List Nat :=
  let k0 := if key.length > 128 then sha512 key else key
  let kp := k0 ++ List.replicate (128 - k0.length) 0
  let ipad := kp.map fun b => b.xor 0x36
  let opad := kp.map fun b => b.xor 0x5c
  sha512 (opad ++ sha512 (ipad ++ data))

end SHA512

/-! ## secp256k1 scalar multiplication (go-ethereum `crypto.S256`) -/

namespace Secp256k1

/-- The secp256k1 field prime. -/
def P : Nat := 2 ^ 256 - 2 ^ 32 - 977

/-- The secp256k1 group order (the `n` constant of `hdwallet.go`). -/
def N : Nat :=
  0xFFFFFFFFFFFFFFFFFFFFFFFFFFFFFFFEBAAEDCE6AF48A03BBFD25E8CD0364141

/-- The x-coordinate of the base point `G`. -/
def Gx : Nat :=
  0x79BE667EF9DCBBAC55A06295CE870B07029BFCDB2DCE28D959F2815B16F81798

/-- The y-coordinate of the base point `G`. -/
def Gy : Nat :=
  0x483ADA7726A3C4655DA4FBFC0E1108A8FD17B448A68554199C47D08FFB10D4B8

/-- A point in Jacobian coordinates; `z = 0` encodes the point at infinity. -/
structure Jac where
  x : Nat
  y : Nat
  z : Nat

/-- Modular exponentiation by repeated squaring (fuel-driven on the first
argument; `fuel = e` always suffices). -/
def powModAux (m : Nat) : Nat → Nat → Nat → Nat
  | 0, _, _ => 1
  | fuel + 1, b, e =>
    if e = 0 then 1
    else
      let h := powModAux m fuel (b * b % m) (e / 2)
      if e % 2 = 1 then h * b % m else h

/-- Modular exponentiation `b ^ e % m`. -/
def powMod (b e m : Nat) : Nat := powModAux m e (b % m) e

/-- Modular inverse in the field, via Fermat. -/
def finv (a : Nat) : Nat := powMod a (P - 2) P

/-- Modular subtraction in the field (both arguments reduced). -/
def fsub (a b : Nat) : Nat := (a % P + (P - b % P)) % P

/-- Point doubling in Jacobian coordinates for a curve with `a = 0`. -/
def jacDouble (q : Jac) : Jac :=
  if q.z = 0 then q
  else
    let A := q.x * q.x % P
    let B := q.y * q.y % P
    let C := B * B % P
    let D := 2 * (fsub ((q.x + B) * (q.x + B)) (A + C)) % P
    let E := 3 * A % P
    let F := E * E % P
    let X := fsub F (2 * D)
    let Y := fsub (E * (fsub D X)) (8 * C)
    let Z := 2 * q.y % P * q.z % P
    ⟨X, Y, Z⟩

/-- Point addition in Jacobian coordinates. -/
def jacAdd (q r : Jac) : Jac :=
  if q.z = 0 then r
  else if r.z = 0 then q
  else
    let z1z1 := q.z * q.z % P
    let z2z2 := r.z * r.z % P
    let u1 := q.x * z2z2 % P
    let u2 := r.x * z1z1 % P
    let s1 := q.y * r.z % P * z2z2 % P
    let s2 := r.y * q.z % P * z1z1 % P
    if u1 = u2 then
      if s1 = s2 then jacDouble q else ⟨0, 1, 0⟩
    else
      let h := fsub u2 u1
      let rr := fsub s2 s1
      let hh := h * h % P
      let hhh := h * hh % P
      let v := u1 * hh % P
      let X := fsub (rr * rr) (hhh + 2 * v)
      let Y := fsub (rr * (fsub v X)) (s1 * hhh)
      let Z := q.z * r.z % P * h % P
      ⟨X, Y, Z⟩

/-- Scalar multiplication of the base point by `k`, binary double-and-add
(fuel-driven on the first argument; `fuel = k` always suffices). -/
def mulBaseAux : Nat → Nat → Jac
  | 0, _ => ⟨0, 1, 0⟩
  | fuel + 1, k =>
    if k = 0 then ⟨0, 1, 0⟩
    else
      let h := jacDouble (mulBaseAux fuel (k / 2))
      if k % 2 = 1 then jacAdd h ⟨Gx, Gy, 1⟩ else h

/-- Affine coordinates of `k * G`; the point at infinity maps to `(0, 0)`,
matching Go `elliptic.Curve.ScalarBaseMult` on the zero scalar. -/
def mulBase (k : Nat) : Nat × Nat :=
  let q := mulBaseAux k k
  if q.z = 0 then (0, 0)
  else
    let zi := finv q.z
    let zi2 := zi * zi % P
    (q.x * zi2 % P, q.y * zi2 % P * zi % P)

end Secp256k1

/-! ## HD key derivation (`wallet/hdwallet.go`) -/

namespace Wallet

/-- `HDKey` of `hdwallet.go`: a hierarchical deterministic key. -/
structure HDKey where
  privateKey : List Nat
  publicKey : List Nat
  chainCode : List Nat
  depth : Nat
  childNum : Nat
  fingerprint : Nat

/-- `hmacSHA512` of `hdwallet.go` (Go `crypto/hmac` over `crypto/sha512`). -/
def hmacSHA512 (key data : List Nat) : List Nat :=
  SHA512.hmac key data

/-- `derivePublicKey` of `hdwallet.go`: compressed encoding of the secp256k1
public point.  The source appends `x.Bytes()` — the minimal big-endian
encoding — to the parity prefix, without left-padding `x` to 32 bytes. -/
def derivePublicKey (privateKey : List Nat) : List Nat :=
  let xy := Secp256k1.mulBase (natOfBytes privateKey)
  if xy.2 % 2 = 0 then 0x02 :: natToBytes xy.1
  else 0x03 :: natToBytes xy.1

/-- `isHardened` of `hdwallet.go`: child numbers at or above `2^31`. -/
def isHardened (childNum : Nat) : Bool := childNum ≥ 0x80000000

/-- The secp256k1 curve order as written in `deriveChild`. -/
def curveOrder : Nat := Secp256k1.N

/-- The HMAC input assembled by `deriveChild` (`hdwallet.go` lines 152-165):
`0x00 ‖ parentPrivateKey ‖ index` for hardened indices, otherwise
`parentPublicKey ‖ index`. -/
def deriveChildData (parent : HDKey) (childNum : Nat) : List Nat :=
  (if isHardened childNum then 0x00 :: parent.privateKey else parent.publicKey) ++
    uint32be childNum

/-- `parentFingerprint` of `hdwallet.go`: first four bytes of the Keccak-256
hash of the public key, read big-endian.  Keccak-256 is the external
go-ethereum primitive, abstracted as the parameter `keccak256`. -/
def parentFingerprint (keccak256 : List Nat → List Nat) (publicKey : List Nat) : Nat :=
  natOfBytes ((keccak256 publicKey).take 4)

/-- The tail of `deriveChild` (`hdwallet.go` lines 168-213), factored over the
HMAC-SHA512 output `hash`: split `hash` into `il ‖ ir`, set the child private
key to `(parentKey + il) mod n`, fail when the result is zero, left-pad the
result to 32 bytes, and assemble the child `HDKey`. -/
def deriveChildWith (keccak256 : List Nat → List Nat) (parent : HDKey)
    (childNum : Nat) (hash : List Nat) : Except String HDKey :=
  if hash.length ≠ 64 then .error "invalid hash length"
  else
    let il := hash.take 32
    let ir := hash.drop 32
    let parentKeyInt := natOfBytes parent.privateKey
    let ilInt := natOfBytes il
    let newKeyInt := (parentKeyInt + ilInt) % curveOrder
    if newKeyInt = 0 then .error "invalid private key"
    else
      let bs := natToBytes newKeyInt
      let newPrivateKey :=
        if bs.length < 32 then List.replicate (32 - bs.length) 0 ++ bs else bs
      .ok
        { privateKey := newPrivateKey
          publicKey := derivePublicKey newPrivateKey
          chainCode := ir
          depth := parent.depth + 1
          childNum := childNum
          fingerprint := parentFingerprint keccak256 parent.publicKey }

/-- `deriveChild` of `hdwallet.go`: HMAC-SHA512 the derivation data under the
parent chain code, then process the hash with `deriveChildWith`. -/
def deriveChild (keccak256 : List Nat → List Nat) (parent : HDKey)
    (childNum : Nat) : Except String HDKey :=
  deriveChildWith keccak256 parent childNum
    (hmacSHA512 parent.chainCode (deriveChildData parent childNum))

end Wallet

/-! ## Encrypted vault (`crypto/vault.go`)

The external primitives the vault calls — scrypt, AES-256-GCM and
`encoding/json` — are library code outside this repository, so they are
abstracted as the function bundle `CryptoPrims`; the vault logic itself
(what is derived from what, what is stored and what is returned) is
embedded faithfully.  `NewVault` takes the freshly generated random salt
and nonce as explicit arguments. -/

namespace Crypto

/-- `VaultData` of `vault.go`: the plaintext serialized into the vault. -/
structure VaultData where
  mnemonic : String
  version : Int
deriving DecidableEq

/-- `Vault` of `vault.go`: the persisted structure.  Its JSON form carries the
four fields `salt`, `nonce`, `data` and `mac`; a Go `nil` byte slice is
modelled as `[]`. -/
structure Vault where
  salt : List Nat
  nonce : List Nat
  data : List Nat
  mac : List Nat
deriving DecidableEq

/-- The external primitives used by `vault.go`: scrypt key derivation
(deterministic, hence a pure function), AES-256-GCM seal/open (the
authentication tag is part of the sealed ciphertext, and opening fails by
returning `none`), and JSON marshalling of `VaultData`. -/
structure CryptoPrims where
  scryptKey : String → List Nat → List Nat
  gcmSeal : List Nat → List Nat → List Nat → List Nat
  gcmOpen : List Nat → List Nat → List Nat → Option (List Nat)
  marshalVaultData : VaultData → List Nat
  unmarshalVaultData : List Nat → Option VaultData

/-- `deriveKey` of `vault.go`: scrypt with the fixed parameters. -/
def deriveKey (pr : CryptoPrims) (password : String) (salt : List Nat) : List Nat :=
  pr.scryptKey password salt

/-- `encrypt` of `vault.go`: GCM-seal the data and return a `nil` MAC — the
source ends in `return ciphertext, nil, nil`. -/
def encrypt (pr : CryptoPrims) (key nonce data : List Nat) : List Nat × List Nat :=
  (pr.gcmSeal key nonce data, [])

/-- `decrypt` of `vault.go`: GCM-open the data.  The `mac` parameter is
accepted but never used by the source. -/
def decrypt (pr : CryptoPrims) (key nonce data _mac : List Nat) : Option (List Nat) :=
  pr.gcmOpen key nonce data

/-- `NewVault` of `vault.go`, with the generated random salt and nonce passed
in: derive the key from the password and salt, marshal
`{mnemonic, version = 1}`, seal it, and store salt, nonce, ciphertext and the
(nil) MAC. -/
def NewVault (pr : CryptoPrims) (mnemonic password : String)
    (salt nonce : List Nat) : Vault :=
  let key := deriveKey pr password salt
  let vaultData : VaultData := { mnemonic := mnemonic, version := 1 }
  let data := pr.marshalVaultData vaultData
  let sealed := encrypt pr key nonce data
  { salt := salt, nonce := nonce, data := sealed.1, mac := sealed.2 }

/-- `Vault.Decrypt` of `vault.go`: re-derive the key from the stored salt and
the supplied password, GCM-open the stored ciphertext under the stored nonce,
unmarshal the plaintext and return the mnemonic. -/
def Vault.Decrypt (pr : CryptoPrims) (v : Vault) (password : String) :
    Except String String :=
  let key := deriveKey pr password v.salt
  match decrypt pr key v.nonce v.data v.mac with
  | none => .error "failed to decrypt data"
  | some plain =>
    match pr.unmarshalVaultData plain with
    | none => .error "failed to deserialize vault data"
    | some vaultData => .ok vaultData.mnemonic

/-- `Vault.ValidatePassword` of `vault.go`: `Decrypt` with the result
discarded. -/
def Vault.ValidatePassword (pr : CryptoPrims) (v : Vault) (password : String) : Bool :=
  (v.Decrypt pr password).isOk

end Crypto

/-! ## Wallet manager (`wallet/manager.go`)

The manager is a state machine over in-memory fields and two on-disk
files.  The file system is embedded explicitly: `vaultFile` is the parsed
content of `wallet.vault` (`none` when absent) and `sessionFile` is the
content of `session.json` — `none` when absent, `some none` when present
but unparsable, `some (some s)` when it parses.  Time is an integer count
of seconds; randomness (session token) is an explicit argument. -/

namespace Wallet

/-- `SessionData` of `manager.go`. -/
structure SessionData where
  token : String
  mnemonic : String
  expiration : Int
  network : String
deriving DecidableEq

/-- The mutable state of `Manager` together with the two files it owns. -/
structure ManagerSt where
  vaultFile : Option Crypto.Vault
  sessionFile : Option (Option SessionData)
  vault : Option Crypto.Vault
  mnemonic : String
  password : String
  unlocked : Bool
  network : String
deriving DecidableEq

/-- The `SessionDuration` constant of `manager.go`, in minutes. -/
def SessionDuration : Int := 30

/-- `Manager.createSession`: write a session recording the freshly generated
token, the in-memory mnemonic, an expiration thirty minutes from now, and the
current network. -/
def createSession (now : Int) (token : String) (st : ManagerSt) : ManagerSt :=
  { st with
    sessionFile := some (some
      { token := token
        mnemonic := st.mnemonic
        expiration := now + SessionDuration * 60
        network := st.network }) }

/-- `Manager.loadSession`: load the session file if it exists and is valid.
A missing file is a miss; an unparsable file is deleted and a miss; an
expired session (`time.Now().After(expiration)`, i.e. strictly later) is
deleted and a miss; a session recorded under a different network is a miss
but its file is left in place; otherwise the mnemonic is loaded and the
manager marked unlocked. -/
def loadSession (now : Int) (st : ManagerSt) : Bool × ManagerSt :=
  match st.sessionFile with
  | none => (false, st)
  | some none => (false, { st with sessionFile := none })
  | some (some session) =>
    if now > session.expiration then
      (false, { st with sessionFile := none })
    else if session.network ≠ st.network then
      (false, st)
    else
      (true, { st with mnemonic := session.mnemonic, unlocked := true })

/-- `Manager.clearSession`: remove the session file. -/
def clearSession (st : ManagerSt) : ManagerSt :=
  { st with sessionFile := none }

/-- `Manager.Unlock`: first try to load an existing session (returning
success immediately, with no password check, when one is valid); otherwise
load the vault from disk if not already in memory, reject the password if it
does not validate against the vault, then decrypt the mnemonic and create a
session. -/
def Unlock (pr : Crypto.CryptoPrims) (now : Int) (token : String)
    (password : String) (st : ManagerSt) : Except String ManagerSt :=
  let loaded := loadSession now st
  if loaded.1 then .ok loaded.2
  else
    let st1 := loaded.2
    let vaultLoaded : Except String (Crypto.Vault × ManagerSt) :=
      match st1.vault with
      | some v => .ok (v, st1)
      | none =>
        match st1.vaultFile with
        | none => .error "failed to load vault"
        | some v => .ok (v, { st1 with vault := some v })
    match vaultLoaded with
    | .error e => .error e
    | .ok (v, st2) =>
      if ¬ v.ValidatePassword pr password then .error "invalid password"
      else
        match v.Decrypt pr password with
        | .error _ => .error "failed to decrypt vault"
        | .ok mnemonic =>
          .ok (createSession now token
            { st2 with mnemonic := mnemonic, password := password, unlocked := true })

/-- `Manager.Initialize`: create a vault from a freshly generated mnemonic
(the BIP-39 generation from 256 bits of entropy is external, so the generated
mnemonic is an explicit argument), save it, mark the manager unlocked and
create a session.  The source performs no check that a vault already
exists. -/
def Initialize (pr : Crypto.CryptoPrims) (generatedMnemonic : String)
    (salt nonce : List Nat) (now : Int) (token : String) (password : String)
    (st : ManagerSt) : ManagerSt :=
  let vault := Crypto.NewVault pr generatedMnemonic password salt nonce
  createSession now token
    { st with
      vaultFile := some vault
      vault := some vault
      mnemonic := generatedMnemonic
      password := password
      unlocked := true }

/-- `Manager.ImportFromMnemonic`: validate the supplied mnemonic with the
external BIP-39 library (abstracted as the predicate `isMnemonicValid`), then
proceed exactly as `Initialize` with the caller-supplied mnemonic.  The
source performs no check that a vault already exists. -/
def ImportFromMnemonic (pr : Crypto.CryptoPrims) (isMnemonicValid : String → Bool)
    (mnemonic : String) (salt nonce : List Nat) (now : Int) (token : String)
    (password : String) (st : ManagerSt) : Except String ManagerSt :=
  if ¬ isMnemonicValid mnemonic then .error "invalid mnemonic"
  else
    .ok (Initialize pr mnemonic salt nonce now token password st)

/-- `Manager.VaultExists`: whether the vault file is present on disk. -/
def VaultExists (st : ManagerSt) : Bool := st.vaultFile.isSome

end Wallet

/-! ## Command layer (`cmd/init.go`, recovery import, `cmd/pay.go`) -/

namespace Cmd

/-- The wallet-existence and password gate of `runInit` (`cmd/init.go`):
refuse when a vault file already exists, require at least eight password
characters and a matching confirmation, then call `Manager.Initialize`.
Terminal I/O is external, so the two password readings are arguments. -/
def runInit (pr : Odyssey.Crypto.CryptoPrims) (generatedMnemonic : String)
    (salt nonce : List Nat) (now : Int) (token : String)
    (password confirmPassword : String) (st : Wallet.ManagerSt) :
    Except String Wallet.ManagerSt :=
  if Wallet.VaultExists st then .error "wallet already exists"
  else if password.length < 8 then .error "password must be at least 8 characters long"
  else if password ≠ confirmPassword then .error "passwords do not match"
  else .ok (Wallet.Initialize pr generatedMnemonic salt nonce now token password st)

/-- `isValidMnemonic` of the recovery command: exactly 24 whitespace-separated
words. -/
def isValidMnemonic (mnemonic : String) : Bool :=
  (((mnemonic.split Char.isWhitespace).filter (· ≠ "")).length == 24)

/-- The gate of `importRecoveryPhrase`: refuse when a vault file already
exists, validate the 24-word count and the password confirmation, then call
`Manager.ImportFromMnemonic`. -/
def importRecoveryPhrase (pr : Odyssey.Crypto.CryptoPrims)
    (isMnemonicValidLib : String → Bool) (mnemonic : String)
    (salt nonce : List Nat) (now : Int) (token : String)
    (password confirmPassword : String) (st : Wallet.ManagerSt) :
    Except String Wallet.ManagerSt :=
  if Wallet.VaultExists st then .error "wallet already exists"
  else if ¬ isValidMnemonic mnemonic then .error "invalid mnemonic"
  else if password ≠ confirmPassword then .error "passwords do not match"
  else Wallet.ImportFromMnemonic pr isMnemonicValidLib mnemonic salt nonce now token password st

/-- The fee-rate selection of `sendBitcoin` (`cmd/pay.go` lines 292-296): the
fetched rate, or 10 sat/byte when the fetch failed. -/
def btcFeeRate (fetched : Option Int) : Int :=
  match fetched with
  | none => 10
  | some r => r

/-- The fee/change plan computed by `sendBitcoin` (`cmd/pay.go` lines
299-362).  `outputs` lists the transaction output values (recipient first;
`AddOutput` appends, `UpdateChangeOutput` rewrites the last output);
`feeFirst` and `feeSecond` record the fee computed from the first size
estimate (line 320) and, when a change output was appended, from the
re-estimated size (line 341). -/
structure BtcPlan where
  outputs : List Int
  txSize : Int
  estimatedFee : Int
  change : Int
  insufficient : Bool
  feeFirst : Int
  feeSecond : Option Int
deriving DecidableEq

/-- The dust threshold of `sendBitcoin`, in satoshis. -/
def dustThreshold : Int := 546

/-- The planning portion of `sendBitcoin`: estimate the transaction size as
`10 + 110 * numInputs + 34` bytes for one output, compute the fee from the
size and the fee rate, fold sub-dust change into the fee, append a change
output for change at or above dust, re-estimate the size with the extra 34
bytes and reduce the change by the fee increase when the change exceeds that
increase, and finally flag insufficiency when the inputs do not cover value
plus fee. -/
def btcPlanCore (numInputs : Nat) (totalInput value : Int)
    (fetchedRate : Option Int) : BtcPlan :=
  let feeRate := btcFeeRate fetchedRate
  let outputs : List Int := [value]
  let txSize : Int := 10 + (numInputs * 110 : Nat) + 1 * 34
  let estimatedFee := txSize * feeRate
  let change := totalInput - value - estimatedFee
  let folded := change > 0 ∧ change < dustThreshold
  let estimatedFee1 := if change > 0 ∧ change < dustThreshold then estimatedFee + change else estimatedFee
  let change1 := if folded then 0 else change
  if change1 > 0 then
    let outputs1 := outputs ++ [change1]
    let txSize1 := txSize + 34
    let newFee := txSize1 * feeRate
    let change2 :=
      if newFee > estimatedFee1 ∧ change1 > newFee - estimatedFee1 then
        change1 - (newFee - estimatedFee1)
      else change1
    let outputs2 :=
      if change2 ≠ change1 then outputs1.dropLast ++ [change2] else outputs1
    { outputs := outputs2
      txSize := txSize1
      estimatedFee := estimatedFee1
      change := change2
      insufficient := totalInput < value + estimatedFee1
      feeFirst := estimatedFee
      feeSecond := some newFee }
  else
    { outputs := outputs
      txSize := txSize
      estimatedFee := estimatedFee1
      change := change1
      insufficient := totalInput < value + estimatedFee1
      feeFirst := estimatedFee
      feeSecond := none }

/-- `sendBitcoin` planning with the surrounding guards of `cmd/pay.go`: no
UTXOs is an immediate error, and an insufficient plan is reported with the
`insufficient funds` error of line 360. -/
def sendBitcoinPlan (numInputs : Nat) (totalInput value : Int)
    (fetchedRate : Option Int) : Except String BtcPlan :=
  if numInputs = 0 then .error "your Bitcoin wallet has no funds"
  else
    let plan := btcPlanCore numInputs totalInput value fetchedRate
    if plan.insufficient then .error "insufficient funds for transaction with fees"
    else .ok plan

end Cmd

/-! ## Solana blockhash validation (`chains/solana/transaction.go`) -/

namespace Solana

/-- The base58 alphabet literal of `BuildAndSign`. -/
def base58Chars : List Char :=
  "123456789ABCDEFGHJKLMNPQRSTUVWXYZabcdefghijkmnopqrstuvwxyz".toList

/-- Index of a character in the base58 alphabet. -/
def b58Index (c : Char) : Option Nat :=
  base58Chars.findIdx? (· == c)

/-- Canonical base58 encoding of a byte string (the `mr-tron/base58`
`Encode`): one alphabet character per leading zero byte, then the base-58
digits of the remaining value. -/
def base58Encode (bytes : List Nat) : List Char :=
  List.replicate (bytes.takeWhile (· == 0)).length '1' ++
    ((toDigitsRev 58 (natOfBytes bytes) (natOfBytes bytes)).reverse.map
      fun d => base58Chars.getD d '1')

/-- Base58 decoding (the `mr-tron/base58` `Decode`): fail on a character
outside the alphabet, count leading `'1'` characters as zero bytes, and read
the whole string as a base-58 number. -/
def base58Decode (chars : List Char) : Option (List Nat) :=
  match chars.mapM b58Index with
  | none => none
  | some digits =>
    some (List.replicate (digits.takeWhile (· == 0)).length 0 ++
      natToBytes (digits.foldl (fun a d => a * 58 + d) 0))

/-- `solana.HashFromBase58` of the solana-go library: base58-decode and
require exactly 32 bytes. -/
def HashFromBase58 (s : String) : Option (List Nat) :=
  match base58Decode s.toList with
  | none => none
  | some bytes => if bytes.length = 32 then some bytes else none

/-- The blockhash format validation prefix of `Transaction.BuildAndSign`
(`chains/solana/transaction.go` lines 45-68): reject an empty blockhash, any
character outside the base58 alphabet, a length below 32 characters, and a
blockhash that does not parse as a 32-byte hash. -/
def validateBlockhash (recentBlockhash : String) : Except String Unit :=
  if recentBlockhash = "" then .error "blockhash is empty"
  else if recentBlockhash.toList.any (fun c => ! base58Chars.contains c) then
    .error "blockhash contains invalid base58 character"
  else if recentBlockhash.length < 32 then .error "blockhash is too short"
  else
    match HashFromBase58 recentBlockhash with
    | none => .error "invalid blockhash format"
    | some _ => .ok ()

end Solana

/-! ## Concrete instantiations and fixtures

Witness and counterexample theorems need concrete values: an executable
instantiation of the abstracted external primitives (any bundle satisfying
the stated round-trip laws will do) and a few concrete manager states. -/

/-- Encode an integer injectively into a natural number (sign bit in the
lowest bit). -/
def intCode (z : Int) : Nat := 2 * z.natAbs + (if z < 0 then 1 else 0)

/-- Inverse of `intCode`. -/
def intDecode (n : Nat) : Int :=
  if n % 2 = 1 then -((n / 2 : Nat) : Int) else ((n / 2 : Nat) : Int)

/-- A trivially invertible stand-in for JSON marshalling of `VaultData`. -/
def toyMarshal (vd : Crypto.VaultData) : List Nat :=
  intCode vd.version :: vd.mnemonic.toList.map Char.toNat

/-- Inverse of `toyMarshal`. -/
def toyUnmarshal (l : List Nat) : Option Crypto.VaultData :=
  match l with
  | [] => none
  | v :: rest => some ⟨String.mk (rest.map Char.ofNat), intDecode v⟩

/-- An executable primitive bundle whose seal/open and marshal/unmarshal
pairs satisfy the round-trip laws. -/
def toyPrims : Crypto.CryptoPrims :=
  { scryptKey := fun password _ => password.toList.map Char.toNat
    gcmSeal := fun key _ data => key ++ data
    gcmOpen := fun key _ sealed =>
      if sealed.take key.length = key then some (sealed.drop key.length) else none
    marshalVaultData := toyMarshal
    unmarshalVaultData := toyUnmarshal }

/-- A stand-in for the external Keccak-256 primitive (its value is irrelevant
to every claim; only the first four bytes feed the fingerprint). -/
def keccakZero : List Nat → List Nat := fun _ => List.replicate 32 0

/-- A concrete 64-byte HMAC-style output whose first 32 bytes decode to the
curve order itself. -/
def hashGeOrder : List Nat := natToBytes Secp256k1.N ++ List.replicate 32 0

/-- A parent key with private key 1 (32 bytes, left-padded). -/
def parentOne : Wallet.HDKey :=
  ⟨List.replicate 31 0 ++ [1], [], List.replicate 32 1, 0, 0, 0⟩

/-- The 32-byte private key with value 153; the x-coordinate of `153 * G` has
eight leading zero bits. -/
def privKey153 : List Nat := List.replicate 31 0 ++ [153]

/-- A parent `HDKey` whose public key is the compressed encoding produced by
`derivePublicKey` for private key 153. -/
def parent153 : Wallet.HDKey :=
  ⟨privKey153, Wallet.derivePublicKey privKey153, List.replicate 32 2, 0, 0, 0⟩

/-- A manager state with no files and no in-memory secrets. -/
def stEmpty : Wallet.ManagerSt :=
  ⟨none, none, none, "", "", false, "mainnet"⟩

/-- A concrete vault on disk (contents irrelevant). -/
def vault0 : Crypto.Vault := ⟨[1], [2], [3], []⟩

/-- A manager state with a vault on disk, used by the C7 counterexample. -/
def stVault : Wallet.ManagerSt :=
  { stEmpty with vaultFile := some vault0 }

/-- A session that expires exactly at time 5, on mainnet. -/
def sessionAtFive : Wallet.SessionData :=
  ⟨"token", "words", 5, "mainnet"⟩

/-- A manager state holding `sessionAtFive`. -/
def stSessionAtFive : Wallet.ManagerSt :=
  { stEmpty with sessionFile := some (some sessionAtFive) }

/-- A testnet session. -/
def sessionTestnet : Wallet.SessionData :=
  ⟨"token", "words", 100, "testnet"⟩

/-- A mainnet manager state holding the testnet session `sessionTestnet`. -/
def stWrongNet : Wallet.ManagerSt :=
  { stEmpty with sessionFile := some (some sessionTestnet) }

/-- A vault created with `toyPrims` for password `pw`, on disk, with no
session. -/
def stToyVault : Wallet.ManagerSt :=
  { stEmpty with vaultFile := some (Crypto.NewVault toyPrims "seed words" "pw" [1, 2] [3]) }

/-! ## Helper lemmas: byte and digit encodings -/

theorem toDigitsRev_eq_digits (b : Nat) (hb : 2 ≤ b) :
    ∀ fuel n, n ≤ fuel → toDigitsRev b fuel n = Nat.digits b n := by
  intro fuel
  induction fuel with
  | zero =>
    intro n hn
    interval_cases n
    simp [toDigitsRev]
  | succ f ih =>
    intro n hn
    by_cases h0 : n = 0
    · simp [toDigitsRev, h0]
    · rw [toDigitsRev, if_neg h0, Nat.digits_of_two_le_of_pos hb (Nat.pos_of_ne_zero h0),
        ih (n / b)]
      have : n / b < n := Nat.div_lt_self (Nat.pos_of_ne_zero h0) hb
      omega

theorem natToBytes_eq (n : Nat) : natToBytes n = (Nat.digits 256 n).reverse := by
  rw [natToBytes, toDigitsRev_eq_digits 256 (by norm_num) n n (le_refl n)]

theorem foldlMulAdd_eq (B : Nat) :
    ∀ (l : List Nat) (acc : Nat),
      l.foldl (fun a d => a * B + d) acc = acc * B ^ l.length + Nat.ofDigits B l.reverse := by
  intro l
  induction l with
  | nil => intro acc; simp [Nat.ofDigits_nil]
  | cons d t ih =>
    intro acc
    simp only [List.foldl_cons, List.reverse_cons, List.length_cons]
    rw [ih (acc * B + d), Nat.ofDigits_append, Nat.ofDigits_singleton,
      List.length_reverse]
    ring

theorem natOfBytes_eq (l : List Nat) : natOfBytes l = Nat.ofDigits 256 l.reverse := by
  rw [natOfBytes, foldlMulAdd_eq]
  simp

theorem natOfBytes_natToBytes (n : Nat) : natOfBytes (natToBytes n) = n := by
  rw [natOfBytes_eq, natToBytes_eq, List.reverse_reverse, Nat.ofDigits_digits]

theorem natToBytes_length_le {n k : Nat} (h : n < 256 ^ k) :
    (natToBytes n).length ≤ k := by
  rw [natToBytes_eq, List.length_reverse]
  by_contra hlen
  push_neg at hlen
  rcases Nat.eq_zero_or_pos n with h0 | h0
  · simp [h0] at hlen
  · have h1 : 256 ^ (Nat.digits 256 n).length ≤ 256 * n :=
      Nat.base_pow_length_digits_le 256 n (by norm_num) (by omega)
    have h2 : 256 ^ (k + 1) ≤ 256 ^ (Nat.digits 256 n).length :=
      Nat.pow_le_pow_right (by norm_num) (by omega)
    have h3 : 256 * n < 256 * 256 ^ k := by omega
    rw [pow_succ] at h2
    omega

theorem natOfBytes_replicate_zero (k : Nat) (l : List Nat) :
    natOfBytes (List.replicate k 0 ++ l) = natOfBytes l := by
  induction k with
  | zero => simp
  | succ m ih =>
    rw [List.replicate_succ, List.cons_append]
    rw [natOfBytes, List.foldl_cons] at *
    simpa using ih

theorem natToBytes_lt_length {n k : Nat} (h : k ≤ (natToBytes n).length) :
    256 ^ (k - 1) ≤ n ∨ k = 0 := by
  rcases Nat.eq_zero_or_pos k with rfl | hk
  · right; rfl
  · left
    rcases Nat.eq_zero_or_pos n with rfl | hn
    · simp [natToBytes_eq] at h; omega
    · have h1 : 256 ^ (Nat.digits 256 n).length ≤ 256 * n :=
        Nat.base_pow_length_digits_le 256 n (by norm_num) (by omega)
    -- 256 ^ len ≤ 256 * n and k ≤ len give 256 ^ k ≤ 256 * n, so 256 ^ (k-1) ≤ n
      rw [natToBytes_eq, List.length_reverse] at h
      have h2 : 256 ^ k ≤ 256 ^ (Nat.digits 256 n).length :=
        Nat.pow_le_pow_right (by norm_num) h
      have h3 : 256 ^ k = 256 * 256 ^ (k - 1) := by
        conv_lhs => rw [show k = (k - 1) + 1 by omega]
        rw [pow_succ]; ring
      omega

theorem sha512_length (msg : List Nat) : (SHA512.sha512 msg).length = 64 := by
  simp [SHA512.sha512, SHA512.wordBytes]

theorem hmac_length (key data : List Nat) : (SHA512.hmac key data).length = 64 := by
  simp [SHA512.hmac, sha512_length]

theorem uintRoundtrip (v : UInt32) (h : v.toNat < 2 ^ 32) :
    ({ toBitVec := BitVec.ofNatLt v.toNat h } : UInt32) = v := by
  rcases v with ⟨⟨⟨n, hn⟩⟩⟩
  simp [UInt32.toNat, BitVec.ofNatLt]

theorem charOfNat_toNat (c : Char) : Char.ofNat c.toNat = c := by
  have h := c.valid
  rw [Char.ofNat, dif_pos]
  · apply Char.ext
    simp only [Char.ofNatAux, Char.toNat, UInt32.ofNat']
    exact uintRoundtrip c.val _
  · exact h

theorem charCodesRoundtrip (s : String) :
    String.mk ((s.toList.map Char.toNat).map Char.ofNat) = s := by
  rcases s with ⟨l⟩
  simp only [String.toList, List.map_map]
  congr 1
  calc List.map (Char.ofNat ∘ Char.toNat) l = List.map id l :=
        List.map_congr_left fun c _ => charOfNat_toNat c
    _ = l := List.map_id l

theorem intDecode_intCode (z : Int) : intDecode (intCode z) = z := by
  rw [intCode, intDecode]
  by_cases hz : z < 0
  · rw [if_pos hz, if_pos (by omega)]
    omega
  · rw [if_neg hz, if_neg (by omega)]
    omega

theorem toyJsonRoundtrip (vd : Crypto.VaultData) :
    toyUnmarshal (toyMarshal vd) = some vd := by
  rw [toyMarshal, toyUnmarshal]
  rcases vd with ⟨m, v⟩
  simp only [Option.some.injEq]
  congr 1
  · exact charCodesRoundtrip m
  · exact intDecode_intCode v

theorem toyOpenRoundtrip (key nonce data : List Nat) :
    toyPrims.gcmOpen key nonce (toyPrims.gcmSeal key nonce data) = some data := by
  simp [toyPrims]

/-! ## Claim theorems -/

/-- C1: for every mnemonic and password, decrypting a freshly created vault
with the same password returns the original mnemonic, given that the random
salt and nonce generation succeeded (they are passed in) and that the
external AES-GCM and JSON primitives satisfy their round-trip laws. -/
theorem C1_vault_roundtrip (pr : Crypto.CryptoPrims)
    (hOpen : ∀ key nonce data, pr.gcmOpen key nonce (pr.gcmSeal key nonce data) = some data)
    (hJson : ∀ vd, pr.unmarshalVaultData (pr.marshalVaultData vd) = some vd)
    (mnemonic password : String) (salt nonce : List Nat) :
    (Crypto.NewVault pr mnemonic password salt nonce).Decrypt pr password = .ok mnemonic := by
  rw [Crypto.NewVault, Crypto.Vault.Decrypt]
  simp only [Crypto.encrypt, Crypto.decrypt, Crypto.deriveKey]
  rw [hOpen]
  simp [hJson]

/-- C1 witness: the round trip at a concrete instantiation. -/
theorem C1_vault_roundtrip_witness :
    (Crypto.NewVault toyPrims "abandon ability able" "hunter2" [1, 2] [3]).Decrypt
      toyPrims "hunter2" = .ok "abandon ability able" :=
  C1_vault_roundtrip toyPrims toyOpenRoundtrip toyJsonRoundtrip
    "abandon ability able" "hunter2" [1, 2] [3]

/-- C10: every vault produced by `NewVault` has a nil MAC field (the
`encrypt` helper always returns a nil MAC since the AES-GCM tag lives inside
the `data` field), and `Decrypt` is independent of the MAC field, which it
never reads. -/
theorem C10_mac_nil_and_unread :
    (∀ (pr : Crypto.CryptoPrims) (mnemonic password : String) (salt nonce : List Nat),
      (Crypto.NewVault pr mnemonic password salt nonce).mac = []) ∧
    (∀ (pr : Crypto.CryptoPrims) (v : Crypto.Vault) (password : String) (mac2 : List Nat),
      Crypto.Vault.Decrypt pr { v with mac := mac2 } password = v.Decrypt pr password) := by
  constructor
  · intro pr mnemonic password salt nonce
    rfl
  · intro pr v password mac2
    rfl

theorem btcPlanCore_feeFirst (numInputs : Nat) (totalInput value : Int) (rate : Option Int) :
    (Cmd.btcPlanCore numInputs totalInput value rate).feeFirst
      = (10 + ((numInputs * 110 : Nat) : Int) + 1 * 34) * Cmd.btcFeeRate rate := by
  simp only [Cmd.btcPlanCore]
  split_ifs <;> rfl

/-- C6: the transaction size estimate used by `sendBitcoin` for fee
computation is `10 + 110 * numInputs + 34 * numOutputs` bytes — one output at
the first estimate, two after a change output is appended — the estimated
fee is that size times the fee rate, and the fee rate defaults to 10
satoshis per byte when the external fetch fails. -/
theorem C6_btc_size_fee (numInputs : Nat) (totalInput value : Int) (rate : Option Int) :
    (Cmd.btcPlanCore numInputs totalInput value rate).feeFirst
        = (10 + 110 * (numInputs : Int) + 34 * 1) * Cmd.btcFeeRate rate ∧
    (Cmd.btcPlanCore numInputs totalInput value rate).txSize
        = 10 + 110 * (numInputs : Int)
          + 34 * (((Cmd.btcPlanCore numInputs totalInput value rate).outputs.length : Nat) : Int) ∧
    ((Cmd.btcPlanCore numInputs totalInput value rate).feeSecond = none ∨
      (Cmd.btcPlanCore numInputs totalInput value rate).feeSecond
        = some ((10 + 110 * (numInputs : Int) + 34 * 2) * Cmd.btcFeeRate rate)) ∧
    Cmd.btcFeeRate none = 10 := by
  refine ⟨?_, ?_, ?_, rfl⟩
  · simp only [Cmd.btcPlanCore]
    split_ifs <;> simp only [] <;> push_cast <;> ring
  · simp only [Cmd.btcPlanCore]
    split_ifs <;>
      simp only [List.dropLast_concat, List.length_append, List.length_cons,
        List.length_nil, List.cons_append, List.nil_append, List.dropLast] <;>
      push_cast <;> ring
  · simp only [Cmd.btcPlanCore]
    split_ifs <;>
      first
        | (left ; rfl)
        | (right ; simp only [Option.some.injEq] ; push_cast ; ring)

/-- C5 counterexample: with one input, fee rate 20 sat/byte, total input
100000 and value 96374 satoshis, the change (546) reaches the dust threshold
so a change output is created, and the size-recalculated fee rises from 3080
to 3760; yet the change is NOT reduced by the 680-satoshi delta — it stays
546, because the source only adjusts when the change strictly exceeds the
delta. -/
theorem C5_counterexample :
    (Cmd.btcPlanCore 1 100000 96374 (some 20)).feeFirst = 3080 ∧
    (Cmd.btcPlanCore 1 100000 96374 (some 20)).feeSecond = some 3760 ∧
    (Cmd.btcPlanCore 1 100000 96374 (some 20)).change = 546 ∧
    (Cmd.btcPlanCore 1 100000 96374 (some 20)).change ≠ 546 - 680 := by
  decide

/-- C5 (amended): with `change = totalInput - value - estimatedFee`, if
`0 < change < 546` the change is folded into the fee and no change output is
created; if `change ≥ 546` a change output is appended and, in a single
adjustment pass, the change is reduced by exactly the fee delta `34 * rate`
when the recalculated fee increased AND the change strictly exceeds that
delta; otherwise the change is left unchanged. -/
theorem C5_btc_change_handling (numInputs : Nat) (totalInput value : Int)
    (rate : Option Int) :
    (0 < totalInput - value - (Cmd.btcPlanCore numInputs totalInput value rate).feeFirst →
     totalInput - value - (Cmd.btcPlanCore numInputs totalInput value rate).feeFirst < 546 →
      (Cmd.btcPlanCore numInputs totalInput value rate).estimatedFee
          = (Cmd.btcPlanCore numInputs totalInput value rate).feeFirst
            + (totalInput - value
                - (Cmd.btcPlanCore numInputs totalInput value rate).feeFirst) ∧
      (Cmd.btcPlanCore numInputs totalInput value rate).change = 0 ∧
      (Cmd.btcPlanCore numInputs totalInput value rate).outputs = [value]) ∧
    (546 ≤ totalInput - value - (Cmd.btcPlanCore numInputs totalInput value rate).feeFirst →
      (Cmd.btcPlanCore numInputs totalInput value rate).outputs
          = [value, (Cmd.btcPlanCore numInputs totalInput value rate).change] ∧
      (Cmd.btcPlanCore numInputs totalInput value rate).feeSecond
          = some ((Cmd.btcPlanCore numInputs totalInput value rate).feeFirst
              + 34 * Cmd.btcFeeRate rate) ∧
      (Cmd.btcPlanCore numInputs totalInput value rate).change
          = (if 0 < Cmd.btcFeeRate rate ∧
                34 * Cmd.btcFeeRate rate
                  < totalInput - value
                      - (Cmd.btcPlanCore numInputs totalInput value rate).feeFirst
             then totalInput - value
                    - (Cmd.btcPlanCore numInputs totalInput value rate).feeFirst
                    - 34 * Cmd.btcFeeRate rate
             else totalInput - value
                    - (Cmd.btcPlanCore numInputs totalInput value rate).feeFirst) ∧
      (Cmd.btcPlanCore numInputs totalInput value rate).estimatedFee
          = (Cmd.btcPlanCore numInputs totalInput value rate).feeFirst) := by
  constructor
  · rw [btcPlanCore_feeFirst]
    intro ha hb
    simp only [Cmd.btcPlanCore, Cmd.dustThreshold]
    split_ifs <;> refine ⟨?_, ?_, ?_⟩ <;> first | omega | rfl
  · rw [btcPlanCore_feeFirst]
    intro ha
    simp only [Cmd.btcPlanCore, Cmd.dustThreshold]
    split_ifs with h1 h2 h3 h4 <;>
      refine ⟨?_, ?_, ?_, ?_⟩ <;>
      (try simp only [List.dropLast_concat, List.cons_append, List.nil_append,
        List.dropLast, Option.some.injEq]) <;>
      first
        | omega
        | rfl
        | (push_cast at * ; ring_nf at * ; omega)
        | (push_cast ; ring)

/-- C5 witness: the two branches of the amended claim at concrete inputs —
the dust fold at rate 3 (fee 462 + 38 → 500, change 0) and the adjusted
change output at rate 10 (change 48460 reduced by the 340-satoshi delta to
48120). -/
theorem C5_btc_change_handling_witness :
    ((Cmd.btcPlanCore 1 100000 99500 (some 3)).estimatedFee = 500 ∧
      (Cmd.btcPlanCore 1 100000 99500 (some 3)).change = 0 ∧
      (Cmd.btcPlanCore 1 100000 99500 (some 3)).outputs = [99500]) ∧
    ((Cmd.btcPlanCore 1 100000 50000 (some 10)).outputs
        = [50000, (Cmd.btcPlanCore 1 100000 50000 (some 10)).change] ∧
      (Cmd.btcPlanCore 1 100000 50000 (some 10)).change = 48120) := by
  refine ⟨?_, ?_⟩
  · have h := (C5_btc_change_handling 1 100000 99500 (some 3)).1 (by decide) (by decide)
    exact ⟨by rw [h.1]; decide, h.2.1, h.2.2⟩
  · have h := (C5_btc_change_handling 1 100000 50000 (some 10)).2 (by decide)
    exact ⟨h.1, by rw [h.2.2.1]; decide⟩

/-- C4 counterexample: the claim fails at two concrete inputs.  First, a
session whose expiration equals the current time (5) is accepted even though
the current time is not before the expiration — the source only rejects
strictly later times.  Second, a testnet session under a mainnet manager is
rejected but its file is NOT destroyed, where the claim requires destruction
on any validity-check failure. -/
theorem C4_counterexample :
    ((Wallet.loadSession 5 stSessionAtFive).1 = true ∧
      ¬ ((5 : Int) < sessionAtFive.expiration)) ∧
    ((Wallet.loadSession 0 stWrongNet).1 = false ∧
      (Wallet.loadSession 0 stWrongNet).2.sessionFile = stWrongNet.sessionFile ∧
      stWrongNet.sessionFile ≠ none) := by
  decide

/-- C4 (amended): a stored session is accepted as valid only if the current
time is not after its expiration (acceptance at `now = expiration` included)
AND its recorded network equals the current network; an accepted session
loads the mnemonic and unlocks the manager.  An unparsable or expired
session file is deleted; a network-mismatched session is rejected but its
file is left in place. -/
theorem C4_session_validity (now : Int) (st : Wallet.ManagerSt) :
    ((Wallet.loadSession now st).1 = true →
      ∃ s, st.sessionFile = some (some s) ∧ now ≤ s.expiration ∧
        s.network = st.network ∧
        (Wallet.loadSession now st).2.unlocked = true ∧
        (Wallet.loadSession now st).2.mnemonic = s.mnemonic) ∧
    (st.sessionFile = some none →
      (Wallet.loadSession now st).1 = false ∧
      (Wallet.loadSession now st).2.sessionFile = none) ∧
    (∀ s, st.sessionFile = some (some s) → s.expiration < now →
      (Wallet.loadSession now st).1 = false ∧
      (Wallet.loadSession now st).2.sessionFile = none) ∧
    (∀ s, st.sessionFile = some (some s) → now ≤ s.expiration →
        s.network ≠ st.network →
      (Wallet.loadSession now st).1 = false ∧
      (Wallet.loadSession now st).2.sessionFile = st.sessionFile) := by
  rcases h : st.sessionFile with _ | (_ | s)
  · simp [Wallet.loadSession, h]
  · simp [Wallet.loadSession, h]
  · refine ⟨?_, ?_, ?_, ?_⟩
    · intro hl
      refine ⟨s, rfl, ?_⟩
      simp only [Wallet.loadSession, h] at hl ⊢
      split_ifs at hl ⊢ with he hn <;>
        first
          | (push_neg at hn ; exact ⟨by omega, hn, rfl, rfl⟩)
          | simp at hl
    · intro hc
      exact absurd hc (by simp)
    · intro s2 hs2 hexp
      obtain rfl : s = s2 := by simpa using hs2
      simp only [Wallet.loadSession, h]
      split_ifs <;> first | exact ⟨rfl, rfl⟩ | omega
    · intro s2 hs2 hle hne
      obtain rfl : s = s2 := by simpa using hs2
      simp only [Wallet.loadSession, h]
      split_ifs <;> first | omega | exact ⟨rfl, h⟩ | simp_all

/-- C4 witness: the amended claim applied at concrete inputs — the expired
session of `stSessionAtFive` at time 6 is rejected and deleted, and the
network-mismatched session of `stWrongNet` is rejected with its file kept. -/
theorem C4_session_validity_witness :
    ((Wallet.loadSession 6 stSessionAtFive).1 = false ∧
      (Wallet.loadSession 6 stSessionAtFive).2.sessionFile = none) ∧
    ((Wallet.loadSession 0 stWrongNet).1 = false ∧
      (Wallet.loadSession 0 stWrongNet).2.sessionFile = stWrongNet.sessionFile) :=
  ⟨(C4_session_validity 6 stSessionAtFive).2.2.1 sessionAtFive rfl (by decide),
   (C4_session_validity 0 stWrongNet).2.2.2 sessionTestnet rfl (by decide) (by decide)⟩

/-- C3: `Unlock` first attempts to load a still-valid session, in which case
it succeeds immediately for every password — the password is never checked —
and only on a session miss does it consult the vault (in memory or from the
vault file), failing with the invalid-password error exactly when the
supplied password does not decrypt the vault. -/
theorem C3_unlock_behavior (pr : Crypto.CryptoPrims) (now : Int)
    (token password : String) (st : Wallet.ManagerSt) :
    ((Wallet.loadSession now st).1 = true →
      Wallet.Unlock pr now token password st = .ok (Wallet.loadSession now st).2) ∧
    ((Wallet.loadSession now st).1 = false →
      ∀ v, ((Wallet.loadSession now st).2.vault = some v ∨
            ((Wallet.loadSession now st).2.vault = none ∧
             (Wallet.loadSession now st).2.vaultFile = some v)) →
        (Wallet.Unlock pr now token password st = .error "invalid password" ↔
          Crypto.Vault.ValidatePassword pr v password = false)) := by
  constructor
  · intro h
    simp [Wallet.Unlock, h]
  · intro h v hv
    rcases hv with hv | ⟨hv1, hv2⟩ <;>
      [simp only [Wallet.Unlock, h, hv];
       simp only [Wallet.Unlock, h, hv1, hv2]] <;>
    · by_cases hvp : Crypto.Vault.ValidatePassword pr v password
      · have hc : ¬ (¬ Crypto.Vault.ValidatePassword pr v password = true) := by simp [hvp]
        rw [if_neg hc]
        rw [Crypto.Vault.ValidatePassword] at hvp
        rcases hD : Crypto.Vault.Decrypt pr v password with e | m
        · rw [hD] at hvp
          simp [Except.isOk, Except.toBool] at hvp
        · simp [Crypto.Vault.ValidatePassword, hD, Except.isOk, Except.toBool]
      · rw [if_pos hvp]
        exact ⟨fun _ => by simpa using hvp, fun _ => rfl⟩

/-- C3 witness: with a valid session on disk, `Unlock` succeeds even for a
wrong password without touching the vault; with no session and a vault
created under password `pw`, `Unlock` rejects password `xx` with the
invalid-password error and does not reject `pw`. -/
theorem C3_unlock_behavior_witness :
    Wallet.Unlock toyPrims 0 "tok" "totally wrong" stSessionAtFive
        = .ok (Wallet.loadSession 0 stSessionAtFive).2 ∧
    Wallet.Unlock toyPrims 0 "tok" "xx" stToyVault = .error "invalid password" ∧
    Wallet.Unlock toyPrims 0 "tok" "pw" stToyVault ≠ .error "invalid password" := by
  refine ⟨?_, ?_, ?_⟩
  · exact (C3_unlock_behavior toyPrims 0 "tok" "totally wrong" stSessionAtFive).1 (by decide)
  · exact ((C3_unlock_behavior toyPrims 0 "tok" "xx" stToyVault).2 (by decide)
      (Crypto.NewVault toyPrims "seed words" "pw" [1, 2] [3]) (Or.inr ⟨rfl, rfl⟩)).mpr
      (by decide)
  · intro hc
    exact absurd (((C3_unlock_behavior toyPrims 0 "tok" "pw" stToyVault).2 (by decide)
      (Crypto.NewVault toyPrims "seed words" "pw" [1, 2] [3]) (Or.inr ⟨rfl, rfl⟩)).mp hc)
      (by decide)

/-- C7 counterexample: `Manager.Initialize` and `Manager.ImportFromMnemonic`
perform NO existing-vault check — at a state whose vault file is present,
`Initialize` succeeds and silently replaces the vault file (and
`ImportFromMnemonic` with a library-valid mnemonic likewise does not fail),
contradicting the claim that they fail with AlreadyExists and leave the
vault unchanged. -/
theorem C7_counterexample :
    Wallet.VaultExists stVault = true ∧
    (Wallet.Initialize toyPrims "new words" [7] [8] 0 "tok" "newpw" stVault).vaultFile
        ≠ stVault.vaultFile ∧
    Wallet.ImportFromMnemonic toyPrims (fun _ => true) "new words" [7] [8] 0 "tok"
        "newpw" stVault
      = .ok (Wallet.Initialize toyPrims "new words" [7] [8] 0 "tok" "newpw" stVault) := by
  refine ⟨rfl, by decide, rfl⟩

/-- C7 (amended): the AlreadyExists check lives in the CLI commands —
`runInit` and the recovery-phrase import refuse to proceed and leave the
state untouched when a vault file exists; only when no vault exists (and the
password checks pass) do they call the manager, which creates and persists
the new vault, marks the manager unlocked, and writes a session. -/
theorem C7_initialize_import (pr : Crypto.CryptoPrims) (isValidLib : String → Bool)
    (gen mn : String) (salt nonce : List Nat) (now : Int)
    (token pw confirm : String) (st : Wallet.ManagerSt) :
    (Wallet.VaultExists st = true →
      Cmd.runInit pr gen salt nonce now token pw confirm st
          = .error "wallet already exists" ∧
      Cmd.importRecoveryPhrase pr isValidLib mn salt nonce now token pw confirm st
          = .error "wallet already exists") ∧
    (Wallet.VaultExists st = false → 8 ≤ pw.length → pw = confirm →
      Cmd.runInit pr gen salt nonce now token pw confirm st
          = .ok (Wallet.Initialize pr gen salt nonce now token pw st)) ∧
    (Wallet.VaultExists st = false → Cmd.isValidMnemonic mn = true →
        isValidLib mn = true → pw = confirm →
      Cmd.importRecoveryPhrase pr isValidLib mn salt nonce now token pw confirm st
          = .ok (Wallet.Initialize pr mn salt nonce now token pw st)) ∧
    ((Wallet.Initialize pr gen salt nonce now token pw st).vaultFile
        = some (Crypto.NewVault pr gen pw salt nonce) ∧
      (Wallet.Initialize pr gen salt nonce now token pw st).unlocked = true ∧
      (Wallet.Initialize pr gen salt nonce now token pw st).sessionFile
        = some (some ⟨token, gen, now + Wallet.SessionDuration * 60, st.network⟩)) := by
  refine ⟨?_, ?_, ?_, rfl, rfl, rfl⟩
  · intro hex
    constructor
    · simp [Cmd.runInit, hex]
    · simp [Cmd.importRecoveryPhrase, hex]
  · intro hex hlen hconf
    subst hconf
    rw [Cmd.runInit, if_neg (by simp [hex]), if_neg (by omega), if_neg (by simp)]
  · intro hex hval hlib hconf
    subst hconf
    rw [Cmd.importRecoveryPhrase, if_neg (by simp [hex]), if_neg (by simp [hval]),
      if_neg (by simp), Wallet.ImportFromMnemonic, if_neg (by simp [hlib])]

/-- C7 witness: the amended claim at concrete inputs — `runInit` refuses
over an existing vault, and on an empty state it initializes, unlocks and
creates a session. -/
theorem C7_initialize_import_witness :
    Cmd.runInit toyPrims "gen words" [1] [2] 0 "tok" "password1" "password1" stVault
        = .error "wallet already exists" ∧
    Cmd.runInit toyPrims "gen words" [1] [2] 0 "tok" "password1" "password1" stEmpty
        = .ok (Wallet.Initialize toyPrims "gen words" [1] [2] 0 "tok" "password1" stEmpty) ∧
    (Wallet.Initialize toyPrims "gen words" [1] [2] 0 "tok" "password1" stEmpty).unlocked
        = true := by
  refine ⟨?_, ?_, ?_⟩
  · exact ((C7_initialize_import toyPrims (fun _ => true) "gen words" "x" [1] [2] 0 "tok"
      "password1" "password1" stVault).1 rfl).1
  · exact (C7_initialize_import toyPrims (fun _ => true) "gen words" "x" [1] [2] 0 "tok"
      "password1" "password1" stEmpty).2.1 rfl (by decide) rfl
  · exact (C7_initialize_import toyPrims (fun _ => true) "gen words" "x" [1] [2] 0 "tok"
      "password1" "password1" stEmpty).2.2.2.2.1

theorem pad32_spec (n : Nat) (h : n < 256 ^ 32) :
    natOfBytes (if (natToBytes n).length < 32
                then List.replicate (32 - (natToBytes n).length) 0 ++ natToBytes n
                else natToBytes n) = n ∧
    (if (natToBytes n).length < 32
     then List.replicate (32 - (natToBytes n).length) 0 ++ natToBytes n
     else natToBytes n).length = 32 := by
  have hle := natToBytes_length_le h
  by_cases hlt : (natToBytes n).length < 32
  · rw [if_pos hlt]
    constructor
    · rw [natOfBytes_replicate_zero, natOfBytes_natToBytes]
    · simp [List.length_replicate]
      omega
  · rw [if_neg hlt]
    exact ⟨natOfBytes_natToBytes n, by omega⟩

theorem curveOrder_lt : Wallet.curveOrder < 256 ^ 32 := by decide

/-- C2 counterexample: `deriveChild` performs NO `I[0:32] ≥ curveOrder`
check.  At a concrete 64-byte hash value whose first 32 bytes decode to the
curve order itself (processed by `deriveChildWith`, the post-HMAC tail of
`deriveChild`) and a parent private key of 1, derivation succeeds — the
claim requires an InvalidKey failure whenever `I[0:32] ≥ curveOrder`. -/
theorem C2_counterexample :
    Wallet.curveOrder ≤ natOfBytes (hashGeOrder.take 32) ∧
    (Wallet.deriveChildWith keccakZero parentOne 0 hashGeOrder).isOk = true := by
  constructor
  · decide
  · decide

/-- C2 (amended): `deriveChild` computes the child private key as
`(parentPrivateKey + I[0:32]) mod curveOrder` with
`I = HMAC-SHA512(parentChainCode, data)`, stores it left-padded to exactly 32
bytes together with the chain code `I[32:64]`, and fails with the
invalid-private-key error exactly when the reduced sum is zero; a value
`I[0:32] ≥ curveOrder` is reduced silently, never rejected. -/
theorem C2_deriveChild_arithmetic (keccak256 : List Nat → List Nat)
    (parent : Wallet.HDKey) (childNum : Nat) :
    ((Wallet.deriveChild keccak256 parent childNum).isOk = true ↔
      (natOfBytes parent.privateKey +
          natOfBytes ((Wallet.hmacSHA512 parent.chainCode
            (Wallet.deriveChildData parent childNum)).take 32)) % Wallet.curveOrder
        ≠ 0) ∧
    (Wallet.deriveChild keccak256 parent childNum).map
        (fun hd => natOfBytes hd.privateKey)
      = (if (natOfBytes parent.privateKey +
              natOfBytes ((Wallet.hmacSHA512 parent.chainCode
                (Wallet.deriveChildData parent childNum)).take 32)) % Wallet.curveOrder
            = 0
         then Except.error "invalid private key"
         else Except.ok ((natOfBytes parent.privateKey +
            natOfBytes ((Wallet.hmacSHA512 parent.chainCode
              (Wallet.deriveChildData parent childNum)).take 32)) % Wallet.curveOrder)) ∧
    (Wallet.deriveChild keccak256 parent childNum).map
        (fun hd => hd.privateKey.length)
      = (if (natOfBytes parent.privateKey +
              natOfBytes ((Wallet.hmacSHA512 parent.chainCode
                (Wallet.deriveChildData parent childNum)).take 32)) % Wallet.curveOrder
            = 0
         then Except.error "invalid private key" else Except.ok 32) ∧
    (Wallet.deriveChild keccak256 parent childNum).map (fun hd => hd.chainCode)
      = (if (natOfBytes parent.privateKey +
              natOfBytes ((Wallet.hmacSHA512 parent.chainCode
                (Wallet.deriveChildData parent childNum)).take 32)) % Wallet.curveOrder
            = 0
         then Except.error "invalid private key"
         else Except.ok ((Wallet.hmacSHA512 parent.chainCode
            (Wallet.deriveChildData parent childNum)).drop 32)) := by
  have hlen : (Wallet.hmacSHA512 parent.chainCode
      (Wallet.deriveChildData parent childNum)).length = 64 := hmac_length _ _
  have hmod : (natOfBytes parent.privateKey +
      natOfBytes ((Wallet.hmacSHA512 parent.chainCode
        (Wallet.deriveChildData parent childNum)).take 32)) % Wallet.curveOrder
      < 256 ^ 32 := by
    have : Wallet.curveOrder ≠ 0 := by decide
    exact lt_trans (Nat.mod_lt _ (Nat.pos_of_ne_zero this)) curveOrder_lt
  have hpad := pad32_spec _ hmod
  rw [Wallet.deriveChild, Wallet.deriveChildWith]
  rw [if_neg (by rw [hlen]; exact fun hc => hc rfl)]
  by_cases hv : (natOfBytes parent.privateKey +
      natOfBytes ((Wallet.hmacSHA512 parent.chainCode
        (Wallet.deriveChildData parent childNum)).take 32)) % Wallet.curveOrder = 0
  · rw [if_pos hv]
    simp [hv, Except.isOk, Except.toBool, Except.map]
  · rw [if_neg hv]
    simp only [Except.map, Except.isOk, Except.toBool]
    refine ⟨by simp [hv], ?_, ?_, ?_⟩
    · rw [if_neg hv, hpad.1]
    · rw [if_neg hv, hpad.2]
    · rw [if_neg hv]

/-- C9: `derivePublicKey` returns a parity prefix followed by the minimal
big-endian encoding of the x-coordinate with no left-padding to 32 bytes, so
whenever the x-coordinate has at least eight leading zero bits (is below
`2^248`) the compressed key is shorter than 33 bytes; the concrete private
key 153 is such a key (its encoding has 32 bytes), and non-hardened
`deriveChild` feeds exactly this shortened key into the HMAC input, whose
length drops to 36 bytes instead of the 37 of the fixed layout. -/
theorem C9_derivePublicKey_no_padding :
    (∀ privateKey : List Nat,
      (Secp256k1.mulBase (natOfBytes privateKey)).1 < 2 ^ 248 →
      (Wallet.derivePublicKey privateKey).length < 33) ∧
    (∀ (parent : Wallet.HDKey) (childNum : Nat), Wallet.isHardened childNum = false →
      Wallet.deriveChildData parent childNum = parent.publicKey ++ uint32be childNum) ∧
    (Wallet.derivePublicKey privKey153).length = 32 ∧
    (Wallet.deriveChildData parent153 0).length = 36 := by
  refine ⟨?_, ?_, ?_, ?_⟩
  · intro pk hx
    have h31 : (natToBytes (Secp256k1.mulBase (natOfBytes pk)).1).length ≤ 31 :=
      natToBytes_length_le (by calc (Secp256k1.mulBase (natOfBytes pk)).1
            < 2 ^ 248 := hx
          _ = 256 ^ 31 := by norm_num)
    rw [Wallet.derivePublicKey]
    split_ifs <;> simp only [List.length_cons] <;> omega
  · intro parent childNum h
    rw [Wallet.deriveChildData, if_neg (by simp [h])]
  · decide
  · decide

/-- C9 witness: the general bound applied at the concrete private key 153,
whose public-key x-coordinate is below `2^248`. -/
theorem C9_derivePublicKey_no_padding_witness :
    (Wallet.derivePublicKey privKey153).length < 33 :=
  C9_derivePublicKey_no_padding.1 privKey153 (by decide)

/-! ## Helper lemmas for base58 (claim C8) -/

theorem toDigitsRev58_eq (n : Nat) : toDigitsRev 58 n n = Nat.digits 58 n :=
  toDigitsRev_eq_digits 58 (by norm_num) n n (le_refl n)

theorem ofDigits_replicate_zero (b k : Nat) :
    Nat.ofDigits b (List.replicate k 0) = 0 := by
  induction k with
  | zero => rfl
  | succ m ih => rw [List.replicate_succ, Nat.ofDigits_cons, ih]; ring

theorem takeWhile_zero_eq_replicate (l : List Nat) :
    l.takeWhile (· == 0) = List.replicate (l.takeWhile (· == 0)).length 0 := by
  induction l with
  | nil => rfl
  | cons a t ih =>
    by_cases ha : a = 0
    · subst ha
      rw [List.takeWhile_cons]
      simp only [beq_self_eq_true, if_pos]
      rw [List.length_cons, List.replicate_succ]
      exact congrArg _ ih
    · rw [List.takeWhile_cons, if_neg (by simpa using ha)]
      rfl

theorem head_dropWhile_ne_zero (l : List Nat) :
    ∀ x ∈ (l.dropWhile (· == 0)).head?, x ≠ 0 := by
  induction l with
  | nil => intro x hx; simp at hx
  | cons a t ih =>
    by_cases ha : a = 0
    · subst ha
      rw [List.dropWhile_cons]
      simpa using ih
    · rw [List.dropWhile_cons, if_neg (by simpa using ha)]
      intro x hx
      simp at hx
      omega

theorem b58_digit_facts :
    ∀ d, d < 58 →
      Solana.b58Index (Solana.base58Chars.getD d '1') = some d ∧
      Solana.base58Chars.contains (Solana.base58Chars.getD d '1') = true := by
  decide

theorem b58Index_one : Solana.b58Index '1' = some 0 := by decide

theorem mapM_b58_map_chr (l : List Nat) (h : ∀ d ∈ l, d < 58) :
    List.mapM Solana.b58Index (l.map (fun d => Solana.base58Chars.getD d '1'))
      = some l := by
  induction l with
  | nil => rfl
  | cons d t ih =>
    rw [List.map_cons, List.mapM_cons, (b58_digit_facts d (h d (by simp))).1,
      ih (fun x hx => h x (by simp [hx]))]
    rfl

theorem mapM_b58_ones_append (z : Nat) (rest : List Char) :
    List.mapM Solana.b58Index (List.replicate z '1' ++ rest)
      = (List.mapM Solana.b58Index rest).map (fun t => List.replicate z 0 ++ t) := by
  induction z with
  | zero =>
    simp only [List.replicate, List.nil_append]
    rcases h : List.mapM Solana.b58Index rest with _ | t <;> simp [h]
  | succ m ih =>
    rw [List.replicate_succ, List.cons_append, List.mapM_cons, b58Index_one, ih]
    rcases h : List.mapM Solana.b58Index rest with _ | t <;>
      simp [h, List.replicate_succ]

theorem takeWhile_replicate_zero_append (z : Nat) (l : List Nat) :
    (List.replicate z 0 ++ l).takeWhile (· == 0)
      = List.replicate z 0 ++ l.takeWhile (· == 0) := by
  induction z with
  | zero => simp
  | succ m ih =>
    simp [List.replicate_succ, List.takeWhile_cons, ih]

theorem bytes_decomp (bytes : List Nat) (hb : ∀ x ∈ bytes, x < 256) :
    bytes = List.replicate (bytes.takeWhile (· == 0)).length 0
              ++ bytes.dropWhile (· == 0) ∧
    Nat.digits 256 (natOfBytes bytes) = (bytes.dropWhile (· == 0)).reverse := by
  have hsplit : bytes = List.replicate (bytes.takeWhile (· == 0)).length 0
      ++ bytes.dropWhile (· == 0) := by
    conv_lhs => rw [← List.takeWhile_append_dropWhile (· == 0) bytes]
    rw [← takeWhile_zero_eq_replicate]
  refine ⟨hsplit, ?_⟩
  have hval : natOfBytes bytes
      = Nat.ofDigits 256 (bytes.dropWhile (· == 0)).reverse := by
    rw [natOfBytes_eq]
    conv_lhs => rw [hsplit]
    rw [List.reverse_append, List.reverse_replicate, Nat.ofDigits_append,
      ofDigits_replicate_zero]
    ring
  rw [hval]
  apply Nat.digits_ofDigits 256 (by norm_num)
  · intro d hd
    exact hb d (List.Sublist.mem (List.mem_reverse.mp hd) (List.dropWhile_sublist _))
  · intro hne hzero
    have h2 := List.getLast?_eq_getLast _ hne
    rw [hzero] at h2
    have h1 := List.getLast?_reverse (bytes.dropWhile (· == 0))
    have h3 : (bytes.dropWhile (· == 0)).head? = some 0 := by rw [← h1, h2]
    exact head_dropWhile_ne_zero bytes 0 (by rw [Option.mem_def, h3]) rfl

theorem digits58_len_ge (n : Nat) (t : List Nat)
    (hdig : Nat.digits 256 n = t.reverse) :
    t.length ≤ (Nat.digits 58 n).length := by
  rcases Nat.eq_zero_or_pos n with rfl | hn
  · simp only [Nat.digits_zero] at hdig
    have : t = [] := by simpa using hdig.symm
    simp [this]
  · have hne : n ≠ 0 := by omega
    have hlen256 : (Nat.digits 256 n).length = t.length := by
      rw [hdig, List.length_reverse]
    have h1 : 256 ^ t.length ≤ 256 * n := by
      rw [← hlen256]
      exact Nat.base_pow_length_digits_le 256 n (by norm_num) hne
    have h2 : n < 58 ^ (Nat.digits 58 n).length :=
      Nat.lt_base_pow_length_digits (by norm_num)
    by_contra hcon
    push_neg at hcon
    have ht1 : 1 ≤ t.length := by
      by_contra h0
      push_neg at h0
      have htnil : t = [] := List.length_eq_zero.mp (by omega)
      rw [htnil] at hdig
      simp at hdig
      exact Nat.digits_ne_nil_iff_ne_zero.mpr hne hdig
    have h3 : 58 ^ (Nat.digits 58 n).length ≤ 58 ^ (t.length - 1) :=
      Nat.pow_le_pow_right (by norm_num) (by omega)
    have h4 : (58 : Nat) ^ (t.length - 1) ≤ 256 ^ (t.length - 1) :=
      Nat.pow_le_pow_left (by norm_num) _
    have h5 : 256 * 256 ^ (t.length - 1) = 256 ^ t.length := by
      conv_rhs => rw [show t.length = (t.length - 1) + 1 by omega]
      rw [pow_succ]
      ring
    have h6 : 256 ^ (t.length - 1) ≤ n := by
      by_contra h7
      push_neg at h7
      have : 256 * n < 256 * 256 ^ (t.length - 1) := by omega
      omega
    omega

theorem digitsBE_takeWhile_nil (n : Nat) :
    (Nat.digits 58 n).reverse.takeWhile (· == 0) = [] := by
  rcases hD : (Nat.digits 58 n).reverse with _ | ⟨d, rest⟩
  · rfl
  · rw [List.takeWhile_cons]
    have hhead : (Nat.digits 58 n).reverse.head? = some d := by rw [hD]; rfl
    rw [List.head?_reverse] at hhead
    have hne : Nat.digits 58 n ≠ [] := by
      intro hnil
      rw [hnil] at hhead
      simp at hhead
    have hn0 : n ≠ 0 := Nat.digits_ne_nil_iff_ne_zero.mp hne
    have hlast := Nat.getLast_digit_ne_zero 58 hn0
    rw [List.getLast?_eq_getLast _ hne] at hhead
    have hd : (Nat.digits 58 n).getLast hne = d := Option.some.inj hhead
    rw [if_neg (by simp; omega)]

theorem base58Encode_facts (bytes : List Nat) (hb : ∀ x ∈ bytes, x < 256) :
    (∀ c ∈ Solana.base58Encode bytes, Solana.base58Chars.contains c = true) ∧
    bytes.length ≤ (Solana.base58Encode bytes).length ∧
    Solana.base58Decode (Solana.base58Encode bytes) = some bytes := by
  obtain ⟨hsplit, hdig⟩ := bytes_decomp bytes hb
  have hdlt : ∀ d ∈ (Nat.digits 58 (natOfBytes bytes)).reverse, d < 58 :=
    fun d hd => Nat.digits_lt_base (by norm_num) (List.mem_reverse.mp hd)
  have hencode : Solana.base58Encode bytes
      = List.replicate (bytes.takeWhile (· == 0)).length '1'
        ++ (Nat.digits 58 (natOfBytes bytes)).reverse.map
            (fun d => Solana.base58Chars.getD d '1') := by
    rw [Solana.base58Encode, toDigitsRev58_eq]
  have hbl : bytes.length
      = (bytes.takeWhile (· == 0)).length + (bytes.dropWhile (· == 0)).length := by
    conv_lhs => rw [hsplit]
    simp
  refine ⟨?_, ?_, ?_⟩
  · intro c hc
    rw [hencode] at hc
    rcases List.mem_append.mp hc with h1 | h1
    · rw [List.eq_of_mem_replicate h1]
      decide
    · obtain ⟨d, hd, rfl⟩ := List.mem_map.mp h1
      exact (b58_digit_facts d (hdlt d hd)).2
  · rw [hencode, List.length_append, List.length_replicate, List.length_map,
      List.length_reverse]
    have hge := digits58_len_ge (natOfBytes bytes) (bytes.dropWhile (· == 0)) hdig
    omega
  · rw [hencode, Solana.base58Decode, mapM_b58_ones_append, mapM_b58_map_chr _ hdlt]
    rw [Option.map_some']
    dsimp only
    have hds_take : ((List.replicate (bytes.takeWhile (· == 0)).length 0
        ++ (Nat.digits 58 (natOfBytes bytes)).reverse).takeWhile (· == 0)).length
        = (bytes.takeWhile (· == 0)).length := by
      rw [takeWhile_replicate_zero_append, digitsBE_takeWhile_nil]
      simp
    have hds_val : (List.replicate (bytes.takeWhile (· == 0)).length 0
        ++ (Nat.digits 58 (natOfBytes bytes)).reverse).foldl
          (fun a d => a * 58 + d) 0 = natOfBytes bytes := by
      rw [foldlMulAdd_eq, List.reverse_append, List.reverse_reverse,
        List.reverse_replicate, Nat.ofDigits_append, ofDigits_replicate_zero,
        Nat.ofDigits_digits]
      ring
    have hnt : natToBytes (natOfBytes bytes) = bytes.dropWhile (· == 0) := by
      rw [natToBytes_eq, hdig, List.reverse_reverse]
    rw [hds_take, hds_val, hnt, ← hsplit]

/-- C8: the blockhash format validation in `BuildAndSign` rejects an empty
blockhash, any blockhash with a character outside the base58 alphabet, and
any blockhash shorter than 32 characters (so `"abc"` of length 3 fails); a
canonical base58 encoding of any 32-byte hash — which always has at least 32
characters — passes the format validation. -/
theorem C8_blockhash_validation :
    Solana.validateBlockhash "" = .error "blockhash is empty" ∧
    (∀ s : String, (∃ c ∈ s.toList, Solana.base58Chars.contains c = false) →
      (Solana.validateBlockhash s).isOk = false) ∧
    ((Solana.validateBlockhash "abc").isOk = false ∧ "abc".length = 3) ∧
    (∀ s : String, s.length < 32 → (Solana.validateBlockhash s).isOk = false) ∧
    (∀ bytes : List Nat, bytes.length = 32 → (∀ x ∈ bytes, x < 256) →
      32 ≤ (String.mk (Solana.base58Encode bytes)).length ∧
      Solana.validateBlockhash (String.mk (Solana.base58Encode bytes)) = .ok ()) := by
  refine ⟨rfl, ?_, by decide, ?_, ?_⟩
  · rintro s ⟨c, hc, hcontains⟩
    rw [Solana.validateBlockhash]
    by_cases hs : s = ""
    · rw [if_pos hs]
      rfl
    · rw [if_neg hs, if_pos (List.any_eq_true.mpr ⟨c, hc, by
        simp at hcontains ⊢
        exact hcontains⟩)]
      rfl
  · intro s h
    rw [Solana.validateBlockhash]
    split_ifs with h1 h2 h3 <;> first | rfl | exact absurd h (by assumption)
  · intro bytes hlen hb
    obtain ⟨hchars, hge, hdec⟩ := base58Encode_facts bytes hb
    have hlen32 : 32 ≤ (Solana.base58Encode bytes).length := by omega
    have hslen : (String.mk (Solana.base58Encode bytes)).length
        = (Solana.base58Encode bytes).length := rfl
    refine ⟨by omega, ?_⟩
    rw [Solana.validateBlockhash]
    rw [if_neg (show ¬ String.mk (Solana.base58Encode bytes) = "" by
      intro hemp
      have : Solana.base58Encode bytes = [] := by
        have := congrArg String.toList hemp
        simpa using this
      rw [this] at hlen32
      simp at hlen32)]
    rw [if_neg (show ¬ ((String.mk (Solana.base58Encode bytes)).toList.any
        (fun c => ! Solana.base58Chars.contains c) = true) by
      intro hany
      obtain ⟨c, hcmem, hcneg⟩ := List.any_eq_true.mp hany
      have hcmem2 : c ∈ Solana.base58Encode bytes := by simpa using hcmem
      have := hchars c hcmem2
      simp at hcneg this
      exact hcneg this)]
    rw [if_neg (by omega)]
    rw [Solana.HashFromBase58]
    rw [show (String.mk (Solana.base58Encode bytes)).toList
        = Solana.base58Encode bytes from rfl]
    rw [hdec]
    dsimp only
    rw [if_pos hlen]

/-- C8 witness: the validation applied at concrete inputs — the encoding of
the all-zero 32-byte hash (32 characters of `1`) passes, and the short
string `"abc"` fails. -/
theorem C8_blockhash_validation_witness :
    (32 ≤ (String.mk (Solana.base58Encode (List.replicate 32 0))).length ∧
      Solana.validateBlockhash (String.mk (Solana.base58Encode (List.replicate 32 0)))
        = .ok ()) ∧
    (Solana.validateBlockhash "abc").isOk = false :=
  ⟨C8_blockhash_validation.2.2.2.2 (List.replicate 32 0) (by decide) (by decide),
   C8_blockhash_validation.2.2.2.1 "abc" (by decide)⟩

end Odyssey

